import Mathlib

/-
Verification of the DevDaze blog content loader and frontmatter parser
(src/main.go) against its specification.

The embedding works over `List Char` (Go strings restricted to the
character level). The external collaborators are handled as the spec
directs: the Markdown-to-HTML renderer (blackfriday.Run) is an abstract
pure function parameter, and the YAML-to-struct deserializer
(gopkg.in/yaml.v2, not part of this repository) is modelled from the
spec's description of its contract.
-/

namespace DevDaze

/-- Go `unicode.IsSpace` restricted to the whitespace characters relevant
to `strings.TrimSpace` (ASCII whitespace plus NEL and NBSP). -/
def isSpace (c : Char) : Bool :=
  c = ' ' || c = '\t' || c = '\n' || c = '\x0B' || c = '\x0C' || c = '\r' ||
  c = '\u0085' || c = '\u00A0'

/-- Go `strings.TrimSpace`: drop leading and trailing whitespace. -/
def trimSpace (s : List Char) : List Char :=
  ((s.dropWhile isSpace).reverse.dropWhile isSpace).reverse

/-- Go `strings.HasPrefix s p`. -/
def hasPrefix : List Char → List Char → Bool
  | _, [] => true
  | [], _ :: _ => false
  | c :: s, p :: ps => c = p && hasPrefix s ps

/-- Go `strings.HasSuffix s suf`. -/
def hasSuffix (s suf : List Char) : Bool :=
  hasPrefix s.reverse suf.reverse

/-- Split `s` at the first occurrence of the (nonempty) separator `sep`:
`none` when `sep` does not occur in `s`, otherwise the part before the
first occurrence and the part after it.  Go's
`strings.SplitN(s, sep, 2)` returns `[s]` in the first case and exactly
the two parts in the second. -/
def splitOnFirst (sep : List Char) : List Char → Option (List Char × List Char)
  | [] => none
  | c :: rest =>
    if hasPrefix (c :: rest) sep then some ([], List.drop sep.length (c :: rest))
    else (splitOnFirst sep rest).map fun p => (c :: p.1, p.2)

/-- The frontmatter delimiter `---`. -/
def threeDashes : List Char := "---".toList

/-- Go `time.Time` restricted to the calendar fields an RFC3339 timestamp
carries; the default value is Go's zero time (0001-01-01T00:00:00Z). -/
structure GoTime where
  year : Nat := 1
  month : Nat := 1
  day : Nat := 1
  hour : Nat := 0
  minute : Nat := 0
  second : Nat := 0
deriving DecidableEq

/-- The zero value of `time.Time`. -/
def zeroGoTime : GoTime := {}

/-- `BlogMetadata` from src/main.go: the frontmatter of a markdown file.
Field defaults are Go's zero values, which is what yaml.v2 leaves in
place for absent keys. -/
structure BlogMetadata where
  Title : List Char := []
  Date : GoTime := {}
  Author : List Char := []
  Description : List Char := []
  Tags : List (List Char) := []
  Slug : List Char := []
deriving DecidableEq

/-- `BlogPost` from src/main.go: a blog post with metadata. -/
structure BlogPost where
  Title : List Char
  Date : GoTime
  Author : List Char
  Description : List Char
  Tags : List (List Char)
  Slug : List Char
  Content : List Char
  HTMLContent : List Char
deriving DecidableEq

/-- Error outcome of the modelled YAML deserializer. -/
inductive YamlErr
  | badLine : List Char → YamlErr
deriving DecidableEq

/-- Error outcomes of `parseMarkdownFile`: the three `fmt.Errorf` sites
("no frontmatter found", "invalid frontmatter format",
"error parsing frontmatter: ..."). -/
inductive ParseErr
  | noFrontmatter
  | invalidFormat
  | yamlError : YamlErr → ParseErr
deriving DecidableEq

/-- `parseMarkdownFile` from src/main.go, parameterized over the two
external collaborators: the YAML deserializer (`unmarshal`) and the
Markdown renderer (`render`).  Mirrors the source line by line:
check the `---` prefix, `strings.SplitN(contentStr[3:], "---", 2)`
(two parts exactly when the closing delimiter occurs), trim both parts,
deserialize the frontmatter, render the body, build the post. -/
def parseMarkdownFile (render : List Char → List Char)
    (unmarshal : List Char → Except YamlErr BlogMetadata)
    (content : List Char) : Except ParseErr BlogPost :=
  if hasPrefix content threeDashes then
    match splitOnFirst threeDashes (List.drop 3 content) with
    | none => .error .invalidFormat
    | some parts =>
      match unmarshal (trimSpace parts.1) with
      | .error e => .error (.yamlError e)
      | .ok metadata =>
        .ok { Title := metadata.Title
              Date := metadata.Date
              Author := metadata.Author
              Description := metadata.Description
              Tags := metadata.Tags
              Slug := metadata.Slug
              Content := trimSpace parts.2
              HTMLContent := render (trimSpace parts.2) }
  else .error .noFrontmatter

/-- The trimmed frontmatter block `parseMarkdownFile` extracts from an
input (empty when there is no closing delimiter). -/
def frontmatterOf (content : List Char) : List Char :=
  match splitOnFirst threeDashes (List.drop 3 content) with
  | some parts => trimSpace parts.1
  | none => []

/-- Split a text into lines at newline characters. -/
def splitLines : List Char → List (List Char)
  | [] => [[]]
  | c :: rest =>
    if c = '\n' then [] :: splitLines rest
    else
      match splitLines rest with
      | [] => [[c]]
      | l :: ls => (c :: l) :: ls

/-- Strip one pair of surrounding double quotes, when present. -/
def unquote (s : List Char) : List Char :=
  match s with
  | '\"' :: rest =>
    match rest.getLast? with
    | some c => if c = '\"' then rest.dropLast else s
    | none => s
  | _ => s

/-- Two decimal digits as a number, when both characters are digits. -/
def digit2 (a b : Char) : Option Nat :=
  if a.isDigit && b.isDigit then some ((a.toNat - 48) * 10 + (b.toNat - 48))
  else none

/-- Four decimal digits as a number, when all characters are digits. -/
def digit4 (a b c d : Char) : Option Nat :=
  match digit2 a b, digit2 c d with
  | some hi, some lo => some (hi * 100 + lo)
  | _, _ => none

/-- Modelled from the spec: RFC3339 timestamp parsing as used for the
frontmatter `date` field ("date: RFC3339 timestamp"); accepts exactly
the shape YYYY-MM-DDThh:mm:ssZ with in-range fields, and yields `none`
on any other input. -/
def parseRFC3339 (v : List Char) : Option GoTime :=
  match v with
  | [y1, y2, y3, y4, p1, mo1, mo2, p2, d1, d2, p3, h1, h2, p4, mi1, mi2, p5,
     se1, se2, p6] =>
    if p1 = '-' && p2 = '-' && p3 = 'T' && p4 = ':' && p5 = ':' && p6 = 'Z' then
      match digit4 y1 y2 y3 y4, digit2 mo1 mo2, digit2 d1 d2, digit2 h1 h2,
            digit2 mi1 mi2, digit2 se1 se2 with
      | some y, some mo, some d, some h, some mi, some se =>
        if 1 ≤ mo ∧ mo ≤ 12 ∧ 1 ≤ d ∧ d ≤ 31 ∧ h ≤ 23 ∧ mi ≤ 59 ∧ se ≤ 59 then
          some { year := y, month := mo, day := d, hour := h, minute := mi,
                 second := se }
        else none
      | _, _, _, _, _, _ => none
    else none
  | _ => none

/-- Split a text at every occurrence of a separator character. -/
def splitOnChar (sep : Char) : List Char → List (List Char)
  | [] => [[]]
  | c :: rest =>
    if c = sep then [] :: splitOnChar sep rest
    else
      match splitOnChar sep rest with
      | [] => [[c]]
      | l :: ls => (c :: l) :: ls

/-- Modelled from the spec: the `tags` field is a flow sequence
`[string, ...]`; elements are comma separated, trimmed and unquoted.
Any other shape yields the empty sequence. -/
def parseTags (v : List Char) : List (List Char) :=
  match v with
  | '[' :: rest =>
    match rest.getLast? with
    | some c =>
      if c = ']' then
        let inner := trimSpace rest.dropLast
        if inner = [] then []
        else (splitOnChar ',' inner).map fun t => unquote (trimSpace t)
      else []
    | none => []
  | _ => []

/-- Modelled from the spec: one line of the YAML mapping.  A blank line
is ignored; a non-blank line without a colon is a structural error; a
`key: value` line sets the recognized field it names (title, date,
author, description, tags, slug) and is ignored otherwise.  An absent or
malformed `date` value yields the zero timestamp rather than an error. -/
def processLine (m : BlogMetadata) (line : List Char) :
    Except YamlErr BlogMetadata :=
  if trimSpace line = [] then .ok m
  else
    match splitOnFirst [':'] (trimSpace line) with
    | none => .error (.badLine line)
    | some kv =>
      if trimSpace kv.1 = "title".toList then
        .ok { m with Title := unquote (trimSpace kv.2) }
      else if trimSpace kv.1 = "date".toList then
        .ok { m with
              Date := (parseRFC3339 (unquote (trimSpace kv.2))).getD zeroGoTime }
      else if trimSpace kv.1 = "author".toList then
        .ok { m with Author := unquote (trimSpace kv.2) }
      else if trimSpace kv.1 = "description".toList then
        .ok { m with Description := unquote (trimSpace kv.2) }
      else if trimSpace kv.1 = "tags".toList then
        .ok { m with Tags := parseTags (trimSpace kv.2) }
      else if trimSpace kv.1 = "slug".toList then
        .ok { m with Slug := unquote (trimSpace kv.2) }
      else .ok m

/-- Process the lines of a metadata block in order, starting from the
defaults. -/
def yamlLoop (m : BlogMetadata) : List (List Char) → Except YamlErr BlogMetadata
  | [] => .ok m
  | l :: ls =>
    match processLine m l with
    | .error e => .error e
    | .ok m2 => yamlLoop m2 ls

/-- Modelled from the spec: the YAML-to-struct deserializer
(gopkg.in/yaml.v2, external to this repository).  "Deserialize the
metadata block as a structured key-value document with recognized
fields ... Unrecognized fields are ignored. Deserialization failure
(malformed structure) fails"; missing keys leave the Go zero values in
place. -/
def yamlUnmarshal (text : List Char) : Except YamlErr BlogMetadata :=
  yamlLoop {} (splitLines text)

/-- The key named by a metadata line: the trimmed text before the first
colon of the trimmed line, when the line has a colon. -/
def lineKey (line : List Char) : Option (List Char) :=
  (splitOnFirst [':'] (trimSpace line)).map fun kv => trimSpace kv.1

/-- The value carried by a metadata line: the trimmed text after the
first colon of the trimmed line, when the line has a colon. -/
def lineVal (line : List Char) : Option (List Char) :=
  (splitOnFirst [':'] (trimSpace line)).map fun kv => trimSpace kv.2

/-- A metadata line whose value does not parse as an RFC3339 timestamp. -/
def dateLineMalformed (line : List Char) : Bool :=
  match lineVal line with
  | some v => (parseRFC3339 (unquote v)).isNone
  | none => false

/-- The filesystem state the content loader sees: whether `./content`
exists, its entries in enumeration order, and each file's readable
content (`none` models a read error). -/
structure ContentDir where
  dirExists : Bool
  entries : List (List Char)
  fileContent : List Char → Option (List Char)

/-- Error outcomes of the content loader: the propagated `os.ReadDir`
error, and the `fmt.Errorf("blog post with slug '%s' not found", slug)`
value built when the scan exhausts all entries. -/
inductive LoadErr
  | dirError
  | notFound : List Char → LoadErr
deriving DecidableEq

/-- The per-entry step both loader loops share (src/main.go lines
119-133 and 158-174): skip names not ending in `.md`, skip unreadable
files, skip files `parseMarkdownFile` rejects, and otherwise produce the
parsed post. -/
def entryPost (render : List Char → List Char)
    (unmarshal : List Char → Except YamlErr BlogMetadata)
    (fc : List Char → Option (List Char)) (name : List Char) :
    Option BlogPost :=
  if hasSuffix name ".md".toList then
    match fc name with
    | none => none
    | some content =>
      match parseMarkdownFile render unmarshal content with
      | .error _ => none
      | .ok post => some post
  else none

/-- Whether a directory entry yields a parsed post whose slug equals the
requested one. -/
def entryMatches (render : List Char → List Char)
    (unmarshal : List Char → Except YamlErr BlogMetadata)
    (fc : List Char → Option (List Char)) (slug name : List Char) : Bool :=
  match entryPost render unmarshal fc name with
  | some post => decide (post.Slug = slug)
  | none => false

/-- Whether a directory entry is a `.md` file that fails to read or
fails to parse (the per-file failures the loader skips). -/
def entryFailed (render : List Char → List Char)
    (unmarshal : List Char → Except YamlErr BlogMetadata)
    (fc : List Char → Option (List Char)) (name : List Char) : Bool :=
  hasSuffix name ".md".toList &&
    match fc name with
    | none => true
    | some content =>
      match parseMarkdownFile render unmarshal content with
      | .error _ => true
      | .ok _ => false

/-- The scan loop of `getBlogPost` (src/main.go lines 119-138): return
the first matching post, or the not-found error after the last entry. -/
def findPost (render : List Char → List Char)
    (unmarshal : List Char → Except YamlErr BlogMetadata)
    (fc : List Char → Option (List Char)) (slug : List Char) :
    List (List Char) → Except LoadErr BlogPost
  | [] => .error (.notFound slug)
  | name :: rest =>
    match entryPost render unmarshal fc name with
    | none => findPost render unmarshal fc slug rest
    | some post =>
      if post.Slug = slug then .ok post
      else findPost render unmarshal fc slug rest

/-- `getBlogPost` from src/main.go: `os.ReadDir` first (its error — in
particular a missing directory — propagates), then the scan loop. -/
def getBlogPost (render : List Char → List Char)
    (unmarshal : List Char → Except YamlErr BlogMetadata)
    (fs : ContentDir) (slug : List Char) : Except LoadErr BlogPost :=
  if fs.dirExists then findPost render unmarshal fs.fileContent slug fs.entries
  else .error .dirError

/-- The collection loop of `getAllBlogPosts` (src/main.go lines
158-177): append each entry's post, skipping failures. -/
def collectPosts (render : List Char → List Char)
    (unmarshal : List Char → Except YamlErr BlogMetadata)
    (fc : List Char → Option (List Char)) :
    List (List Char) → List BlogPost
  | [] => []
  | name :: rest =>
    match entryPost render unmarshal fc name with
    | none => collectPosts render unmarshal fc rest
    | some post => post :: collectPosts render unmarshal fc rest

/-- `getAllBlogPosts` from src/main.go: `os.Stat` plus `os.IsNotExist`
first (a missing directory yields the empty list, not an error), then
`os.ReadDir` and the collection loop. -/
def getAllBlogPosts (render : List Char → List Char)
    (unmarshal : List Char → Except YamlErr BlogMetadata)
    (fs : ContentDir) : Except LoadErr (List BlogPost) :=
  if fs.dirExists then
    .ok (collectPosts render unmarshal fs.fileContent fs.entries)
  else .ok []

/-- The identity Markdown renderer, used to instantiate the abstract
renderer parameter on concrete inputs. -/
def renderId (s : List Char) : List Char := s

/-- Sample input with an opening but no closing delimiter. -/
def noCloseContent : List Char := "---\nbad".toList

/-- Sample input whose body contains a further delimiter. -/
def thirdDashContent : List Char := "---\na: b\n---\nB\n---\nC".toList

/-- The post parsed from `thirdDashContent`. -/
def thirdDashPost : BlogPost :=
  { Title := [], Date := zeroGoTime, Author := [], Description := [],
    Tags := [], Slug := [], Content := "B\n---\nC".toList,
    HTMLContent := "B\n---\nC".toList }

/-- Sample valid post file declaring slug `s`. -/
def fileA : List Char := "---\ntitle: A\nslug: s\n---\nX".toList

/-- The post parsed from `fileA`. -/
def fileAPost : BlogPost :=
  { Title := "A".toList, Date := zeroGoTime, Author := [], Description := [],
    Tags := [], Slug := "s".toList, Content := "X".toList,
    HTMLContent := "X".toList }

/-- A second sample valid post file declaring the same slug `s`. -/
def fileB : List Char := "---\ntitle: B\nslug: s\n---\nY".toList

/-- Sample valid post file declaring slug `good`. -/
def goodFile : List Char := "---\nslug: good\n---\nBody".toList

/-- The post parsed from `goodFile`. -/
def goodPost : BlogPost :=
  { Title := [], Date := zeroGoTime, Author := [], Description := [],
    Tags := [], Slug := "good".toList, Content := "Body".toList,
    HTMLContent := "Body".toList }

/-- Sample directory holding `fileA` and `fileB`, two files that share a
slug. -/
def twoSlugDir : ContentDir :=
  { dirExists := true,
    entries := ["a.md".toList, "b.md".toList],
    fileContent := fun name =>
      if name = "a.md".toList then some fileA
      else if name = "b.md".toList then some fileB
      else none }

/-- The file-content map of a directory holding one malformed file and
one valid file. -/
def goodBadContent (name : List Char) : Option (List Char) :=
  if name = "bad.md".toList then some noCloseContent
  else if name = "good.md".toList then some goodFile
  else none

/-- Sample directory that does not exist. -/
def missingDir : ContentDir :=
  { dirExists := false, entries := [], fileContent := fun _ => none }

/-- Sample existing directory none of whose entries declares slug `zzz`. -/
def noMatchDir : ContentDir :=
  { dirExists := true,
    entries := ["a.md".toList, "notes.txt".toList],
    fileContent := fun name =>
      if name = "a.md".toList then some fileA else none }

/-- Sample input whose `date` value is malformed. -/
def badDateContent : List Char := "---\ndate: x\nslug: a\n---\nB".toList

/-- The post parsed from `badDateContent`. -/
def badDatePost : BlogPost :=
  { Title := [], Date := zeroGoTime, Author := [], Description := [],
    Tags := [], Slug := "a".toList, Content := "B".toList,
    HTMLContent := "B".toList }

/-- Sample input whose metadata block names only an unrecognized field. -/
def unknownKeyContent : List Char := "---\nx: y\n---\nB".toList

/-- The post parsed from `unknownKeyContent`. -/
def unknownKeyPost : BlogPost :=
  { Title := [], Date := zeroGoTime, Author := [], Description := [],
    Tags := [], Slug := [], Content := "B".toList,
    HTMLContent := "B".toList }

end DevDaze

namespace DevDaze

/-- Claim C3: `parseMarkdownFile` fails with the "no frontmatter found"
condition exactly when its input does not begin with a line of three
hyphens; on every such input it fails with this condition and never an
unrelated error, regardless of the deserializer and renderer. -/
theorem parse_noFrontmatter_iff
    (render : List Char → List Char)
    (unmarshal : List Char → Except YamlErr BlogMetadata)
    (content : List Char) :
    parseMarkdownFile render unmarshal content = .error .noFrontmatter ↔
      hasPrefix content threeDashes = false := by
  unfold parseMarkdownFile
  cases h : hasPrefix content threeDashes with
  | false => simp [h]
  | true =>
    cases hs : splitOnFirst threeDashes (List.drop 3 content) with
    | none => simp [h, hs]
    | some parts =>
      cases hu : unmarshal (trimSpace parts.1) with
      | error e => simp [h, hs, hu]
      | ok metadata => simp [h, hs, hu]

end DevDaze


namespace DevDaze

/-- A list with a Boolean-checked prefix decomposes as that prefix
followed by the remainder. -/
theorem hasPrefix_decomp (p : List Char) :
    ∀ s : List Char, hasPrefix s p = true → s = p ++ List.drop p.length s := by
  induction p with
  | nil => intro s _; simp
  | cons c ps ih =>
    intro s h
    cases s with
    | nil => simp [hasPrefix] at h
    | cons a rest =>
      simp only [hasPrefix, Bool.and_eq_true, decide_eq_true_eq] at h
      obtain ⟨rfl, h2⟩ := h
      simpa using ih rest h2

/-- `splitOnFirst` decomposes its input as the part before the
separator, the separator, and the part after it (which runs to the end
of the input). -/
theorem splitOnFirst_decomp (sep : List Char) :
    ∀ s a b : List Char, splitOnFirst sep s = some (a, b) →
      s = a ++ sep ++ b := by
  intro s
  induction s with
  | nil => intro a b h; simp [splitOnFirst] at h
  | cons c rest ih =>
    intro a b h
    unfold splitOnFirst at h
    split at h
    · next hp =>
      simp only [Option.some.injEq, Prod.mk.injEq] at h
      obtain ⟨rfl, rfl⟩ := h
      simpa using hasPrefix_decomp sep (c :: rest) hp
    · next hp =>
      cases hr : splitOnFirst sep rest with
      | none => rw [hr] at h; simp at h
      | some p =>
        rw [hr] at h
        simp only [Option.map_some', Option.some.injEq, Prod.mk.injEq] at h
        obtain ⟨rfl, rfl⟩ := h
        have := ih p.1 p.2 (by rw [hr])
        simpa using this

/-- Claim C7: on every input that begins with the opening delimiter but
has no further occurrence of three hyphens after it, `parseMarkdownFile`
fails with the "invalid frontmatter format" condition. -/
theorem parse_invalidFormat_of_noClose
    (render : List Char → List Char)
    (unmarshal : List Char → Except YamlErr BlogMetadata)
    (content : List Char)
    (hp : hasPrefix content threeDashes = true)
    (hs : splitOnFirst threeDashes (List.drop 3 content) = none) :
    parseMarkdownFile render unmarshal content = .error .invalidFormat := by
  unfold parseMarkdownFile
  simp [hp, hs]

/-- Witness for C7 at a concrete input. -/
theorem parse_invalidFormat_of_noClose_witness :
    hasPrefix noCloseContent threeDashes = true ∧
    splitOnFirst threeDashes (List.drop 3 noCloseContent) = none ∧
    parseMarkdownFile renderId yamlUnmarshal noCloseContent =
      .error .invalidFormat :=
  ⟨by decide, by decide,
   parse_invalidFormat_of_noClose renderId yamlUnmarshal noCloseContent
     (by decide) (by decide)⟩

/-- Claim C6: for every input `parseMarkdownFile` accepts, the stored
raw body equals the text between the first closing delimiter and the
end of the file with surrounding whitespace removed; that text runs to
the end of the input (the split is limited to two parts), so a further
delimiter occurrence stays inside it verbatim. -/
theorem parse_body_roundtrip
    (render : List Char → List Char)
    (unmarshal : List Char → Except YamlErr BlogMetadata)
    (content fmRaw bodyRaw : List Char) (post : BlogPost)
    (hs : splitOnFirst threeDashes (List.drop 3 content) =
      some (fmRaw, bodyRaw))
    (hok : parseMarkdownFile render unmarshal content = .ok post) :
    post.Content = trimSpace bodyRaw ∧
    List.drop 3 content = fmRaw ++ threeDashes ++ bodyRaw := by
  refine ⟨?_, splitOnFirst_decomp threeDashes _ fmRaw bodyRaw hs⟩
  unfold parseMarkdownFile at hok
  cases h : hasPrefix content threeDashes with
  | false => simp [h] at hok
  | true =>
    rw [h] at hok
    simp only [if_true] at hok
    rw [hs] at hok
    cases hu : unmarshal (trimSpace fmRaw) with
    | error e => simp [hu] at hok
    | ok metadata =>
      simp only [hu, Except.ok.injEq] at hok
      rw [← hok]

/-- Witness for C6 at a concrete input whose body contains a further
delimiter. -/
theorem parse_body_roundtrip_witness :
    parseMarkdownFile renderId yamlUnmarshal thirdDashContent =
      .ok thirdDashPost ∧
    (thirdDashPost.Content = trimSpace ("\nB\n---\nC".toList) ∧
     List.drop 3 thirdDashContent =
       "\na: b\n".toList ++ threeDashes ++ "\nB\n---\nC".toList) ∧
    thirdDashPost.Content = "B\n---\nC".toList :=
  ⟨rfl,
   parse_body_roundtrip renderId yamlUnmarshal thirdDashContent
     ("\na: b\n".toList) ("\nB\n---\nC".toList) thirdDashPost
     (by decide) rfl,
   rfl⟩

end DevDaze

namespace DevDaze

/-- A scan over entries none of which matches ends at the not-found
error. -/
theorem findPost_exhausted (render : List Char → List Char)
    (unmarshal : List Char → Except YamlErr BlogMetadata)
    (fc : List Char → Option (List Char)) (slug : List Char) :
    ∀ l : List (List Char),
      (∀ name ∈ l, entryMatches render unmarshal fc slug name = false) →
      findPost render unmarshal fc slug l = .error (.notFound slug) := by
  intro l
  induction l with
  | nil => intro _; rfl
  | cons name rest ih =>
    intro h
    have hn := h name (List.mem_cons_self name rest)
    have hrest := fun x hx => h x (List.mem_cons_of_mem name hx)
    unfold findPost
    unfold entryMatches at hn
    cases hp : entryPost render unmarshal fc name with
    | none => exact ih hrest
    | some post =>
      rw [hp] at hn
      have hne : ¬ post.Slug = slug := by
        have hd : decide (post.Slug = slug) = false := hn
        exact of_decide_eq_false hd
      show (if post.Slug = slug then Except.ok post
            else findPost render unmarshal fc slug rest) =
        Except.error (LoadErr.notFound slug)
      rw [if_neg hne]
      exact ih hrest

/-- Claim C1: when the directory exists and no entry yields a parsed
post with the requested slug, `getBlogPost` returns the dedicated
not-found error, which is distinct from the propagated directory-read
error. -/
theorem getBlogPost_notFound (render : List Char → List Char)
    (unmarshal : List Char → Except YamlErr BlogMetadata)
    (fs : ContentDir) (slug : List Char)
    (hdir : fs.dirExists = true)
    (h : ∀ name ∈ fs.entries,
      entryMatches render unmarshal fs.fileContent slug name = false) :
    getBlogPost render unmarshal fs slug = .error (.notFound slug) ∧
    LoadErr.notFound slug ≠ LoadErr.dirError := by
  constructor
  · unfold getBlogPost
    rw [hdir]
    simp only [if_true]
    exact findPost_exhausted render unmarshal fs.fileContent slug fs.entries h
  · intro hc; cases hc

/-- Witness for C1 at a concrete directory with no matching slug. -/
theorem getBlogPost_notFound_witness :
    noMatchDir.dirExists = true ∧
    getBlogPost renderId yamlUnmarshal noMatchDir ("zzz".toList) =
      .error (.notFound ("zzz".toList)) :=
  ⟨rfl,
   (getBlogPost_notFound renderId yamlUnmarshal noMatchDir ("zzz".toList)
     rfl (by decide)).1⟩

/-- A scan returns the first matching entry's post, whatever follows
it. -/
theorem findPost_first_match (render : List Char → List Char)
    (unmarshal : List Char → Except YamlErr BlogMetadata)
    (fc : List Char → Option (List Char)) (slug name : List Char)
    (post : BlogPost) :
    ∀ pre suf : List (List Char),
      (∀ x ∈ pre, entryMatches render unmarshal fc slug x = false) →
      entryPost render unmarshal fc name = some post →
      post.Slug = slug →
      findPost render unmarshal fc slug (pre ++ name :: suf) = .ok post := by
  intro pre
  induction pre with
  | nil =>
    intro suf _ hp hs
    simp only [List.nil_append]
    unfold findPost
    rw [hp]
    show (if post.Slug = slug then Except.ok post
          else findPost render unmarshal fc slug suf) = Except.ok post
    rw [if_pos hs]
  | cons x xs ih =>
    intro suf h hp hs
    have hx := h x (List.mem_cons_self x xs)
    have hxs := fun y hy => h y (List.mem_cons_of_mem x hy)
    simp only [List.cons_append]
    unfold findPost
    unfold entryMatches at hx
    cases hpx : entryPost render unmarshal fc x with
    | none => exact ih suf hxs hp hs
    | some p =>
      rw [hpx] at hx
      have hne : ¬ p.Slug = slug := by
        have hd : decide (p.Slug = slug) = false := hx
        exact of_decide_eq_false hd
      show (if p.Slug = slug then Except.ok p
            else findPost render unmarshal fc slug (xs ++ name :: suf)) =
        Except.ok post
      rw [if_neg hne]
      exact ih suf hxs hp hs

/-- Claim C8: `getBlogPost` short-circuits on the first entry in scan
order whose parsed post carries the requested slug; entries after it —
including ones declaring the same slug — are never consulted for the
result. -/
theorem getBlogPost_first_match (render : List Char → List Char)
    (unmarshal : List Char → Except YamlErr BlogMetadata)
    (fs : ContentDir) (slug name : List Char)
    (pre suf : List (List Char)) (post : BlogPost)
    (hdir : fs.dirExists = true)
    (he : fs.entries = pre ++ name :: suf)
    (h : ∀ x ∈ pre, entryMatches render unmarshal fs.fileContent slug x = false)
    (hp : entryPost render unmarshal fs.fileContent name = some post)
    (hs : post.Slug = slug) :
    getBlogPost render unmarshal fs slug = .ok post := by
  unfold getBlogPost
  rw [hdir]
  simp only [if_true]
  rw [he]
  exact findPost_first_match render unmarshal fs.fileContent slug name post
    pre suf h hp hs

/-- Witness for C8 at a concrete directory whose two files share a slug:
the first file in scan order wins. -/
theorem getBlogPost_first_match_witness :
    getBlogPost renderId yamlUnmarshal twoSlugDir ("s".toList) =
      .ok fileAPost ∧
    entryMatches renderId yamlUnmarshal twoSlugDir.fileContent ("s".toList)
      ("b.md".toList) = true :=
  ⟨getBlogPost_first_match renderId yamlUnmarshal twoSlugDir ("s".toList)
     ("a.md".toList) [] ["b.md".toList] fileAPost rfl rfl
     (by decide) (by decide) (by decide),
   by decide⟩

/-- Claim C4: when the content directory does not exist,
`getAllBlogPosts` returns the empty sequence and no error. -/
theorem getAllBlogPosts_missing_dir (render : List Char → List Char)
    (unmarshal : List Char → Except YamlErr BlogMetadata)
    (fs : ContentDir) (h : fs.dirExists = false) :
    getAllBlogPosts render unmarshal fs = .ok [] := by
  unfold getAllBlogPosts
  rw [h]
  simp

/-- Witness for C4 at a concrete missing directory. -/
theorem getAllBlogPosts_missing_dir_witness :
    missingDir.dirExists = false ∧
    getAllBlogPosts renderId yamlUnmarshal missingDir = .ok [] :=
  ⟨rfl, getAllBlogPosts_missing_dir renderId yamlUnmarshal missingDir rfl⟩

/-- A failed entry contributes no post. -/
theorem entryFailed_none (render : List Char → List Char)
    (unmarshal : List Char → Except YamlErr BlogMetadata)
    (fc : List Char → Option (List Char)) (name : List Char)
    (h : entryFailed render unmarshal fc name = true) :
    entryPost render unmarshal fc name = none := by
  unfold entryFailed at h
  unfold entryPost
  rw [Bool.and_eq_true] at h
  obtain ⟨h1, h2⟩ := h
  rw [if_pos h1]
  cases hfc : fc name with
  | none => rfl
  | some content =>
    rw [hfc] at h2
    cases hpr : parseMarkdownFile render unmarshal content with
    | error e =>
      show (match parseMarkdownFile render unmarshal content with
            | Except.error a => (none : Option BlogPost)
            | Except.ok post => some post) = none
      rw [hpr]
    | ok post =>
      have h3 : (match parseMarkdownFile render unmarshal content with
                 | Except.error a => true
                 | Except.ok a => false) = true := h2
      rw [hpr] at h3
      exact absurd h3 Bool.false_ne_true

/-- Removing an entry that yields no post leaves the collected list
unchanged. -/
theorem collectPosts_skip (render : List Char → List Char)
    (unmarshal : List Char → Except YamlErr BlogMetadata)
    (fc : List Char → Option (List Char)) (name : List Char)
    (hfail : entryPost render unmarshal fc name = none) :
    ∀ pre suf : List (List Char),
      collectPosts render unmarshal fc (pre ++ name :: suf) =
        collectPosts render unmarshal fc (pre ++ suf) := by
  intro pre
  induction pre with
  | nil =>
    intro suf
    simp only [List.nil_append]
    show (match entryPost render unmarshal fc name with
          | none => collectPosts render unmarshal fc suf
          | some post => post :: collectPosts render unmarshal fc suf) =
      collectPosts render unmarshal fc suf
    rw [hfail]
  | cons x xs ih =>
    intro suf
    simp only [List.cons_append]
    show (match entryPost render unmarshal fc x with
          | none => collectPosts render unmarshal fc (xs ++ name :: suf)
          | some post =>
            post :: collectPosts render unmarshal fc (xs ++ name :: suf)) =
      (match entryPost render unmarshal fc x with
       | none => collectPosts render unmarshal fc (xs ++ suf)
       | some post => post :: collectPosts render unmarshal fc (xs ++ suf))
    cases hx : entryPost render unmarshal fc x with
    | none => exact ih suf
    | some p => exact congrArg (List.cons p) (ih suf)

/-- Claim C5: a `.md` entry that fails to read or fails to parse is
skipped by `getAllBlogPosts` and never aborts the batch: the listing
with the failed entry equals the listing without it, and no error is
produced. -/
theorem getAllBlogPosts_skips_failed (render : List Char → List Char)
    (unmarshal : List Char → Except YamlErr BlogMetadata)
    (fc : List Char → Option (List Char))
    (pre suf : List (List Char)) (name : List Char)
    (h : entryFailed render unmarshal fc name = true) :
    getAllBlogPosts render unmarshal ⟨true, pre ++ name :: suf, fc⟩ =
      getAllBlogPosts render unmarshal ⟨true, pre ++ suf, fc⟩ := by
  show Except.ok (collectPosts render unmarshal fc (pre ++ name :: suf)) =
    Except.ok (collectPosts render unmarshal fc (pre ++ suf))
  exact congrArg Except.ok
    (collectPosts_skip render unmarshal fc name
      (entryFailed_none render unmarshal fc name h) pre suf)

/-- Witness for C5 at a concrete directory with one malformed and one
valid file: exactly the valid post remains and no error is produced. -/
theorem getAllBlogPosts_skips_failed_witness :
    entryFailed renderId yamlUnmarshal goodBadContent ("bad.md".toList) =
      true ∧
    getAllBlogPosts renderId yamlUnmarshal
        ⟨true, ["bad.md".toList, "good.md".toList], goodBadContent⟩ =
      getAllBlogPosts renderId yamlUnmarshal
        ⟨true, ["good.md".toList], goodBadContent⟩ ∧
    getAllBlogPosts renderId yamlUnmarshal
        ⟨true, ["good.md".toList], goodBadContent⟩ = .ok [goodPost] :=
  ⟨by decide,
   getAllBlogPosts_skips_failed renderId yamlUnmarshal goodBadContent
     [] ["good.md".toList] ("bad.md".toList) (by decide),
   rfl⟩

/-- Claim C10: on a missing content directory `getBlogPost` propagates
the directory-read error — not the not-found condition and not an empty
result — while `getAllBlogPosts` maps the same state to the empty
sequence. -/
theorem getBlogPost_missing_dir (render : List Char → List Char)
    (unmarshal : List Char → Except YamlErr BlogMetadata)
    (fs : ContentDir) (slug : List Char)
    (h : fs.dirExists = false) :
    getBlogPost render unmarshal fs slug = .error .dirError ∧
    getAllBlogPosts render unmarshal fs = .ok [] ∧
    LoadErr.dirError ≠ LoadErr.notFound slug := by
  refine ⟨?_, ?_, ?_⟩
  · unfold getBlogPost
    rw [h]
    simp
  · unfold getAllBlogPosts
    rw [h]
    simp
  · intro hc; cases hc

/-- Witness for C10 at a concrete missing directory. -/
theorem getBlogPost_missing_dir_witness :
    missingDir.dirExists = false ∧
    getBlogPost renderId yamlUnmarshal missingDir ("x".toList) =
      .error .dirError ∧
    getAllBlogPosts renderId yamlUnmarshal missingDir = .ok [] :=
  ⟨rfl,
   (getBlogPost_missing_dir renderId yamlUnmarshal missingDir
     ("x".toList) rfl).1,
   (getBlogPost_missing_dir renderId yamlUnmarshal missingDir
     ("x".toList) rfl).2.1⟩

end DevDaze

namespace DevDaze

/-- An accepted parse deserializes the extracted frontmatter block and
copies the metadata fields onto the post. -/
theorem parse_ok_metadata (render : List Char → List Char)
    (unmarshal : List Char → Except YamlErr BlogMetadata)
    (content : List Char) (post : BlogPost)
    (hok : parseMarkdownFile render unmarshal content = .ok post) :
    ∃ m : BlogMetadata, unmarshal (frontmatterOf content) = .ok m ∧
      post.Title = m.Title ∧ post.Date = m.Date ∧ post.Author = m.Author ∧
      post.Description = m.Description ∧ post.Tags = m.Tags ∧
      post.Slug = m.Slug := by
  unfold parseMarkdownFile at hok
  split at hok
  · split at hok
    · simp at hok
    · next parts heq =>
      split at hok
      · simp at hok
      · next m heq2 =>
        rw [Except.ok.injEq] at hok
        refine ⟨m, ?_, ?_, ?_, ?_, ?_, ?_, ?_⟩
        · unfold frontmatterOf
          rw [heq]
          exact heq2
        · rw [← hok]
        · rw [← hok]
        · rw [← hok]
        · rw [← hok]
        · rw [← hok]
        · rw [← hok]
  · simp at hok

/-- A successfully processed line leaves every metadata field it does
not name unchanged. -/
theorem processLine_preserve (m : BlogMetadata) (l : List Char)
    (m2 : BlogMetadata) (hok : processLine m l = .ok m2) :
    (lineKey l ≠ some ("title".toList) → m2.Title = m.Title) ∧
    (lineKey l ≠ some ("date".toList) → m2.Date = m.Date) ∧
    (lineKey l ≠ some ("author".toList) → m2.Author = m.Author) ∧
    (lineKey l ≠ some ("description".toList) → m2.Description = m.Description) ∧
    (lineKey l ≠ some ("tags".toList) → m2.Tags = m.Tags) ∧
    (lineKey l ≠ some ("slug".toList) → m2.Slug = m.Slug) := by
  unfold processLine at hok
  unfold lineKey
  split at hok
  · next he =>
    rw [Except.ok.injEq] at hok
    subst hok
    simp
  · next he =>
    split at hok
    · simp at hok
    · next kv heq =>
      rw [heq]
      split at hok
      · next h1 =>
        rw [Except.ok.injEq] at hok; subst hok; simp [h1]
      · next h1 =>
        split at hok
        · next h2 =>
          rw [Except.ok.injEq] at hok; subst hok; simp [h2]
        · next h2 =>
          split at hok
          · next h3 =>
            rw [Except.ok.injEq] at hok; subst hok; simp [h3]
          · next h3 =>
            split at hok
            · next h4 =>
              rw [Except.ok.injEq] at hok; subst hok; simp [h4]
            · next h4 =>
              split at hok
              · next h5 =>
                rw [Except.ok.injEq] at hok; subst hok; simp [h5]
              · next h5 =>
                split at hok
                · next h6 =>
                  rw [Except.ok.injEq] at hok; subst hok; simp [h6]
                · next h6 =>
                  rw [Except.ok.injEq] at hok; subst hok; simp

end DevDaze

namespace DevDaze

/-- Processing a block leaves every metadata field named by none of its
lines at the value it started with. -/
theorem yamlLoop_preserve (ls : List (List Char)) :
    ∀ m m2 : BlogMetadata, yamlLoop m ls = .ok m2 →
    ((∀ l ∈ ls, lineKey l ≠ some ("title".toList)) → m2.Title = m.Title) ∧
    ((∀ l ∈ ls, lineKey l ≠ some ("date".toList)) → m2.Date = m.Date) ∧
    ((∀ l ∈ ls, lineKey l ≠ some ("author".toList)) → m2.Author = m.Author) ∧
    ((∀ l ∈ ls, lineKey l ≠ some ("description".toList)) →
      m2.Description = m.Description) ∧
    ((∀ l ∈ ls, lineKey l ≠ some ("tags".toList)) → m2.Tags = m.Tags) ∧
    ((∀ l ∈ ls, lineKey l ≠ some ("slug".toList)) → m2.Slug = m.Slug) := by
  induction ls with
  | nil =>
    intro m m2 hok
    have hm : m = m2 := by
      rw [show yamlLoop m [] = Except.ok m from rfl, Except.ok.injEq] at hok
      exact hok
    subst hm
    simp
  | cons l ls ih =>
    intro m m2 hok
    unfold yamlLoop at hok
    cases hpl : processLine m l with
    | error e => rw [hpl] at hok; simp at hok
    | ok m1 =>
      rw [hpl] at hok
      have hok2 : yamlLoop m1 ls = .ok m2 := hok
      have hp := processLine_preserve m l m1 hpl
      have hl := ih m1 m2 hok2
      refine ⟨?_, ?_, ?_, ?_, ?_, ?_⟩
      · intro hall
        rw [hl.1 fun x hx => hall x (List.mem_cons_of_mem l hx)]
        exact hp.1 (hall l (List.mem_cons_self l ls))
      · intro hall
        rw [hl.2.1 fun x hx => hall x (List.mem_cons_of_mem l hx)]
        exact hp.2.1 (hall l (List.mem_cons_self l ls))
      · intro hall
        rw [hl.2.2.1 fun x hx => hall x (List.mem_cons_of_mem l hx)]
        exact hp.2.2.1 (hall l (List.mem_cons_self l ls))
      · intro hall
        rw [hl.2.2.2.1 fun x hx => hall x (List.mem_cons_of_mem l hx)]
        exact hp.2.2.2.1 (hall l (List.mem_cons_self l ls))
      · intro hall
        rw [hl.2.2.2.2.1 fun x hx => hall x (List.mem_cons_of_mem l hx)]
        exact hp.2.2.2.2.1 (hall l (List.mem_cons_self l ls))
      · intro hall
        rw [hl.2.2.2.2.2 fun x hx => hall x (List.mem_cons_of_mem l hx)]
        exact hp.2.2.2.2.2 (hall l (List.mem_cons_self l ls))

/-- Claim C9: when the metadata block deserializes successfully but no
line of it names a recognized field, the corresponding post attribute is
left at its default/empty value; this is not an error. -/
theorem parse_missing_fields_default (render : List Char → List Char)
    (content : List Char) (post : BlogPost)
    (hok : parseMarkdownFile render yamlUnmarshal content = .ok post) :
    ((∀ l ∈ splitLines (frontmatterOf content),
        lineKey l ≠ some ("title".toList)) → post.Title = []) ∧
    ((∀ l ∈ splitLines (frontmatterOf content),
        lineKey l ≠ some ("date".toList)) → post.Date = zeroGoTime) ∧
    ((∀ l ∈ splitLines (frontmatterOf content),
        lineKey l ≠ some ("author".toList)) → post.Author = []) ∧
    ((∀ l ∈ splitLines (frontmatterOf content),
        lineKey l ≠ some ("description".toList)) → post.Description = []) ∧
    ((∀ l ∈ splitLines (frontmatterOf content),
        lineKey l ≠ some ("tags".toList)) → post.Tags = []) ∧
    ((∀ l ∈ splitLines (frontmatterOf content),
        lineKey l ≠ some ("slug".toList)) → post.Slug = []) := by
  obtain ⟨m, hu, ht, hd, ha, hde, htg, hs⟩ :=
    parse_ok_metadata render yamlUnmarshal content post hok
  unfold yamlUnmarshal at hu
  have hl := yamlLoop_preserve (splitLines (frontmatterOf content)) {} m hu
  refine ⟨?_, ?_, ?_, ?_, ?_, ?_⟩
  · intro hall; rw [ht, hl.1 hall]
  · intro hall; rw [hd, hl.2.1 hall]; rfl
  · intro hall; rw [ha, hl.2.2.1 hall]
  · intro hall; rw [hde, hl.2.2.2.1 hall]
  · intro hall; rw [htg, hl.2.2.2.2.1 hall]
  · intro hall; rw [hs, hl.2.2.2.2.2 hall]

/-- Witness for C9 at a concrete input whose metadata block names only
an unrecognized field. -/
theorem parse_missing_fields_default_witness :
    parseMarkdownFile renderId yamlUnmarshal unknownKeyContent =
      .ok unknownKeyPost ∧
    unknownKeyPost.Title = [] ∧ unknownKeyPost.Date = zeroGoTime ∧
    unknownKeyPost.Author = [] ∧ unknownKeyPost.Description = [] ∧
    unknownKeyPost.Tags = [] ∧ unknownKeyPost.Slug = [] := by
  have h := parse_missing_fields_default renderId unknownKeyContent
    unknownKeyPost rfl
  exact ⟨rfl, h.1 (by decide), h.2.1 (by decide), h.2.2.1 (by decide),
         h.2.2.2.1 (by decide), h.2.2.2.2.1 (by decide),
         h.2.2.2.2.2 (by decide)⟩

end DevDaze

namespace DevDaze

/-- Processing one line keeps a zero date when the line either does not
name `date` or carries a value that fails timestamp parsing. -/
theorem processLine_date_zero (m : BlogMetadata) (l : List Char)
    (m2 : BlogMetadata) (hok : processLine m l = .ok m2)
    (hmz : m.Date = zeroGoTime)
    (h : lineKey l = some ("date".toList) → dateLineMalformed l = true) :
    m2.Date = zeroGoTime := by
  by_cases hk : lineKey l = some ("date".toList)
  · have hm := h hk
    unfold processLine at hok
    unfold lineKey at hk
    unfold dateLineMalformed lineVal at hm
    split at hok
    · next he =>
      rw [Except.ok.injEq] at hok
      subst hok
      exact hmz
    · next he =>
      split at hok
      · simp at hok
      · next kv heq =>
        rw [heq] at hk hm
        simp only [Option.map_some', Option.some.injEq] at hk
        have hm2 : (parseRFC3339 (unquote (trimSpace kv.2))).isNone = true := hm
        rw [hk] at hok
        rw [if_neg (by decide), if_pos rfl] at hok
        rw [Except.ok.injEq] at hok
        subst hok
        show (parseRFC3339 (unquote (trimSpace kv.2))).getD zeroGoTime =
          zeroGoTime
        rw [Option.isNone_iff_eq_none] at hm2
        rw [hm2]
        rfl
  · have hp := processLine_preserve m l m2 hok
    rw [hp.2.1 hk]
    exact hmz

/-- Processing a block whose every `date` line carries an unparseable
value keeps the date at zero. -/
theorem yamlLoop_date_zero (ls : List (List Char)) :
    ∀ m m2 : BlogMetadata, m.Date = zeroGoTime →
      (∀ l ∈ ls, lineKey l = some ("date".toList) →
        dateLineMalformed l = true) →
      yamlLoop m ls = .ok m2 → m2.Date = zeroGoTime := by
  induction ls with
  | nil =>
    intro m m2 hmz _ hok
    have hm : m = m2 := by
      rw [show yamlLoop m [] = Except.ok m from rfl, Except.ok.injEq] at hok
      exact hok
    rw [← hm]
    exact hmz
  | cons l ls ih =>
    intro m m2 hmz hall hok
    unfold yamlLoop at hok
    cases hpl : processLine m l with
    | error e => rw [hpl] at hok; simp at hok
    | ok m1 =>
      rw [hpl] at hok
      have hok2 : yamlLoop m1 ls = .ok m2 := hok
      have h1 := processLine_date_zero m l m1 hpl hmz
        (hall l (List.mem_cons_self l ls))
      exact ih m1 m2 h1 (fun x hx => hall x (List.mem_cons_of_mem l hx)) hok2

/-- Claim C2: when the frontmatter's `date` value is absent or
malformed (every line naming `date` carries an unparseable value,
vacuously so when none does), the parse does not fail on that account
and the returned post carries the zero/default timestamp. -/
theorem parse_bad_date_zero (render : List Char → List Char)
    (content : List Char) (post : BlogPost)
    (hok : parseMarkdownFile render yamlUnmarshal content = .ok post)
    (h : ∀ l ∈ splitLines (frontmatterOf content),
      lineKey l = some ("date".toList) → dateLineMalformed l = true) :
    post.Date = zeroGoTime := by
  obtain ⟨m, hu, ht, hd, ha, hde, htg, hs⟩ :=
    parse_ok_metadata render yamlUnmarshal content post hok
  unfold yamlUnmarshal at hu
  rw [hd]
  exact yamlLoop_date_zero (splitLines (frontmatterOf content)) {} m rfl h hu

/-- Witness for C2 at a concrete input with a malformed `date` value:
the parse succeeds and the date is the zero timestamp. -/
theorem parse_bad_date_zero_witness :
    parseMarkdownFile renderId yamlUnmarshal badDateContent =
      .ok badDatePost ∧
    badDatePost.Date = zeroGoTime :=
  ⟨rfl, parse_bad_date_zero renderId badDateContent badDatePost rfl
    (by decide)⟩

end DevDaze
